import Mathlib

/-!
Positional-argument specs: validation and token distribution.

A shallow embedding of `arg_spec.go`, `parse_args.go` and the `BoolArg` type of
`flag_bool.go`.

* Go `int` is modelled as `Int`, additions wrapped to the signed 64-bit range.
* A Go slice of tokens is modelled with its capacity: the elements below `len`
  and the elements of the backing array between `len` and `cap`.
* A Go function that can return an error or abort with a run-time panic yields
  an `Outcome`; every `Parse` call made on the way is recorded in a trace.
-/

namespace Cli

/-! Go run-time model -/

/-- Wrap an integer to the range of a signed 64-bit Go `int`. -/
def wrapInt (x : Int) : Int :=
  (x + 2 ^ 63) % 2 ^ 64 - 2 ^ 63

/-- Run-time panics of the Go code. -/
inductive Panic where
  /-- Index expression `s[i]` with `i` outside `0 .. len(s)-1`. -/
  | indexOutOfRange (i : Int) (len : Nat)
  /-- Slice expression `s[lo:hi]` violating `0 ≤ lo ≤ hi ≤ cap(s)`. -/
  | sliceBoundsOutOfRange (lo hi : Int) (cap : Nat)
  /-- Any other panic, raised inside a `Parse` method. -/
  | other (msg : String)
  deriving DecidableEq, Repr

/-- A Go slice: `vis` are the elements below `len`, `hid` the elements of the
backing array between `len` and `cap`. -/
structure GoSlice (α : Type) where
  vis : List α
  hid : List α := []
  deriving DecidableEq, Repr

namespace GoSlice

variable {α : Type}

/-- Go `len(s)`. -/
def len (s : GoSlice α) : Nat := s.vis.length

/-- Go `cap(s)`. -/
def cap (s : GoSlice α) : Nat := s.vis.length + s.hid.length

/-- Go slice expression `s[lo:hi]`: legal when `0 ≤ lo ≤ hi ≤ cap(s)`. -/
def slice (s : GoSlice α) (lo hi : Int) : Except Panic (GoSlice α) :=
  if 0 ≤ lo ∧ lo ≤ hi ∧ hi ≤ (s.cap : Int) then
    .ok ⟨((s.vis ++ s.hid).take hi.toNat).drop lo.toNat, (s.vis ++ s.hid).drop hi.toNat⟩
  else
    .error (.sliceBoundsOutOfRange lo hi s.cap)

/-- Go `s[:hi]`. -/
def sliceTo (s : GoSlice α) (hi : Int) : Except Panic (GoSlice α) :=
  s.slice 0 hi

/-- Go `s[lo:]`, that is `s[lo:len(s)]`. -/
def sliceFrom (s : GoSlice α) (lo : Int) : Except Panic (GoSlice α) :=
  s.slice lo (s.len : Int)

end GoSlice

/-- Result of a Go function of type `error` run on state `σ`: it returns `nil`,
returns an error, or panics. -/
inductive Outcome (σ : Type) where
  | ok (s : σ)
  | error (msg : String) (s : σ)
  | panic (p : Panic)
  deriving DecidableEq, Repr

/-! The file `arg_spec.go` -/

/-- The `ArgSpec` interface. The state `σ` stands for everything `Parse` can
read and write: the `*flag.FlagSet` and the value slots of the specs. -/
structure ArgSpec (σ : Type) where
  AccessName : String
  IsRequired : Bool
  IsSlice : Bool
  MaxLength : Int
  Parse : σ → GoSlice String → Outcome σ

/-- One recorded call `spec.Parse(set, values)`. -/
structure Call (σ : Type) where
  spec : ArgSpec σ
  values : GoSlice String

/-- A finished run: the `Parse` calls made, in order, and how the run ended. -/
structure Run (σ : Type) where
  trace : List (Call σ)
  out : Outcome σ

/-- Prepend a call to the trace of a run. -/
def Run.after {σ : Type} (c : Call σ) (r : Run σ) : Run σ :=
  ⟨c :: r.trace, r.out⟩

/-! The file `parse_args.go` -/

/-- The `argInfo` struct; a fresh value has every field at its zero value. -/
structure argInfo (σ : Type) where
  req : List (ArgSpec σ) := []
  opt : List (ArgSpec σ) := []
  firstReq : Int := 0
  firstOpt : Int := 0
  maxOptArgs : Int := 0
  unlimOptArgs : Bool := false
  reqArgs : Int := 0

/-- The errors built by `verifyArgSpec` with `fmt.Errorf`. -/
inductive VerifyError where
  | switchBackOptional (i : Int)
  | switchBackRequired (i : Int)
  | unboundedRequiredSlice (i : Int)
  deriving DecidableEq, Repr

/-- The text of the error, as formatted by `fmt.Errorf`. -/
def VerifyError.message : VerifyError → String
  | .switchBackOptional i =>
      "Switching back to \"optional\" ArgSpec at index " ++ toString i ++ ". "
  | .switchBackRequired i =>
      "Switching back to \"required\" ArgSpec at index " ++ toString i ++ ". "
  | .unboundedRequiredSlice i =>
      "has unbounded size for \"required\"+\"slice\" ArgSpec at index " ++ toString i

/-- The index an error names. -/
def VerifyError.index : VerifyError → Int
  | .switchBackOptional i => i
  | .switchBackRequired i => i
  | .unboundedRequiredSlice i => i

section Verify

variable {σ : Type}

/-- First loop of `verifyArgSpec`, over `specs[1:]`: `i` is the loop index,
`r` the variable `r`; the loop breaks at the first spec whose required-ness
differs from `req` and otherwise sets `r = i`. -/
def scanRun (req : Bool) : List (ArgSpec σ) → Nat → Nat → Nat
  | [], _, r => r
  | spec :: rest, i, r =>
    if spec.IsRequired != req then r else scanRun req rest (i + 1) i

/-- Second loop of `verifyArgSpec`, over `specs[l:]`: the first index `i` at
which the required-ness differs from `req`. -/
def findSwitch (req : Bool) : List (ArgSpec σ) → Nat → Option Nat
  | [], _ => none
  | spec :: rest, i =>
    if spec.IsRequired != req then some i else findSwitch req rest (i + 1)

/-- Third loop of `verifyArgSpec`, over `res.req`: accumulates `reqArgs`. -/
def sumReq (firstReq : Int) : List (ArgSpec σ) → Nat → Int → Except VerifyError Int
  | [], _, acc => .ok acc
  | spec :: rest, i, acc =>
    if spec.IsSlice then
      if spec.MaxLength = 0 then
        .error (.unboundedRequiredSlice (wrapInt (firstReq + i)))
      else
        sumReq firstReq rest (i + 1) (wrapInt (acc + spec.MaxLength))
    else
      sumReq firstReq rest (i + 1) (wrapInt (acc + 1))

/-- Fourth loop of `verifyArgSpec`, over `res.opt`: accumulates `maxOptArgs`
and `unlimOptArgs`. -/
def sumOpt : List (ArgSpec σ) → Int → Bool → Int × Bool
  | [], acc, unlim => (acc, unlim)
  | spec :: rest, acc, unlim =>
    if spec.IsSlice then
      sumOpt rest (wrapInt (acc + spec.MaxLength)) (if spec.MaxLength = 0 then true else unlim)
    else
      sumOpt rest (wrapInt (acc + 1)) unlim

/-- Lines 38 to 57 of `verifyArgSpec`, run on the non-empty list
`specs = s0 :: tl`: the first loop, which sets `r`, and the assignment of
`req`, `opt`, `firstReq` and `firstOpt` in `res`. -/
def splitRuns (s0 : ArgSpec σ) (tl : List (ArgSpec σ)) : argInfo σ :=
  let specs := s0 :: tl
  let l : Nat := 0
  let req := s0.IsRequired
  let r := scanRun req tl 0 0
  if req then
    { req := (specs.take r).drop l, opt := specs.drop r, firstOpt := r }
  else
    { opt := (specs.take r).drop l, req := specs.drop r, firstReq := r }

/-- Go `verifyArgSpec`. -/
def verifyArgSpec (specs : List (ArgSpec σ)) : Except VerifyError (argInfo σ) :=
  match specs with
  | [] => .ok {}
  | s0 :: tl =>
    let l : Nat := 0
    let res : argInfo σ := splitRuns s0 tl
    let req := !s0.IsRequired
    match findSwitch req (specs.drop l) 0 with
    | some i =>
      if req then .error (.switchBackOptional i) else .error (.switchBackRequired i)
    | none =>
      match sumReq res.firstReq res.req 0 res.reqArgs with
      | .error e => .error e
      | .ok reqArgs =>
        let (maxOptArgs, unlimOptArgs) := sumOpt res.opt res.maxOptArgs res.unlimOptArgs
        .ok { res with reqArgs := reqArgs, maxOptArgs := maxOptArgs, unlimOptArgs := unlimOptArgs }

end Verify

section Distribute

variable {σ : Type}

/-- Token count of one iteration of `parseRequiredArgs`: `1`, or
`front.MaxLength()` when `front.IsSlice()`. -/
def reqCount (front : ArgSpec σ) : Int :=
  if front.IsSlice then front.MaxLength else 1

/-- The `for` loop of `parseRequiredArgs`, entered at its condition with the
current values of `front`, `argSpec` and `args`. -/
def parseRequiredLoop (front : ArgSpec σ) :
    List (ArgSpec σ) → GoSlice String → σ → Run σ
  | [], _, set => ⟨[], .ok set⟩
  | _ :: rest, args, set =>
    let count := reqCount front
    match args.sliceTo count with
    | .error p => ⟨[], .panic p⟩
    | .ok values =>
      Run.after ⟨front, values⟩ <|
        match front.Parse set values with
        | .panic p => ⟨[], .panic p⟩
        | .error msg set1 => ⟨[], .error msg set1⟩
        | .ok set1 =>
          match args.sliceFrom count with
          | .error p => ⟨[], .panic p⟩
          | .ok args1 =>
            -- post statement: `front, argSpec = argSpec[1], argSpec[1:]`
            match rest.head? with
            | none => ⟨[], .panic (.indexOutOfRange 1 1)⟩
            | some next => parseRequiredLoop next rest args1 set1

/-- Go `parseRequiredArgs`. -/
def parseRequiredArgs (argSpec : List (ArgSpec σ)) (args : GoSlice String) (set : σ) : Run σ :=
  match argSpec.head? with
  | none => ⟨[], .panic (.indexOutOfRange 0 0)⟩
  | some front => parseRequiredLoop front argSpec args set

/-- Token count of one iteration of `parseOptionalArgs`, given `len(args)`. -/
def optCount (front : ArgSpec σ) (len : Int) : Int :=
  let count : Int := 1
  if front.IsSlice then
    let count := if front.MaxLength > count then front.MaxLength else count
    if len < count then len else count
  else
    count

/-- The `for` loop of `parseOptionalArgs`, entered at its condition with the
current values of `front`, `argSpec` and `args`. -/
def parseOptionalLoop (front : ArgSpec σ) :
    List (ArgSpec σ) → GoSlice String → σ → Run σ
  | [], _, set => ⟨[], .ok set⟩
  | _ :: rest, args, set =>
    if args.len > 0 then
      let count := optCount front args.len
      match args.sliceTo count with
      | .error p => ⟨[], .panic p⟩
      | .ok values =>
        Run.after ⟨front, values⟩ <|
          match front.Parse set values with
          | .panic p => ⟨[], .panic p⟩
          | .error msg set1 => ⟨[], .error msg set1⟩
          | .ok set1 =>
            match args.sliceFrom count with
            | .error p => ⟨[], .panic p⟩
            | .ok args1 =>
              -- post statement: `front, argSpec = argSpec[1], argSpec[1:]`
              match rest.head? with
              | none => ⟨[], .panic (.indexOutOfRange 1 1)⟩
              | some next => parseOptionalLoop next rest args1 set1
    else
      ⟨[], .ok set⟩

/-- Go `parseOptionalArgs`. -/
def parseOptionalArgs (argSpec : List (ArgSpec σ)) (args : GoSlice String) (set : σ) : Run σ :=
  match argSpec.head? with
  | none => ⟨[], .panic (.indexOutOfRange 0 0)⟩
  | some front => parseOptionalLoop front argSpec args set

/-- The variable `argsForReq` of `parseArgs`:
`args[info.firstReq : info.firstReq+info.reqArgs]`. -/
def argsForReq (info : argInfo σ) (args : GoSlice String) : Except Panic (GoSlice String) :=
  args.slice info.firstReq (wrapInt (info.firstReq + info.reqArgs))

/-- The variable `argsForOpt` of `parseArgs`: `args[info.firstReq+info.reqArgs:]`
when `info.firstReq == 0`, else `args[:info.firstReq]`. -/
def argsForOpt (info : argInfo σ) (args : GoSlice String) : Except Panic (GoSlice String) :=
  if info.firstReq = 0 then
    args.sliceFrom (wrapInt (info.firstReq + info.reqArgs))
  else
    args.sliceTo info.firstReq

/-- The last statements of `parseArgs`, given the two windows: the call
`required(set, info.req, argsForReq)`, the return of its error, and the call
`optional(set, info.opt, argsForOpt)`. -/
def parseWindows (required optional : List (ArgSpec σ) → GoSlice String → σ → Run σ)
    (info : argInfo σ) (forReq forOpt : GoSlice String) (set : σ) : Run σ :=
  let r := required info.req forReq set
  match r.out with
  | .ok set1 =>
    let r2 := optional info.opt forOpt set1
    ⟨r.trace ++ r2.trace, r2.out⟩
  | _ => r

/-- The body of `parseArgs`, with the two functions it calls as parameters:
`required` stands for `parseRequiredArgs` and `optional` for
`parseOptionalArgs`. -/
def parseArgsWith (required optional : List (ArgSpec σ) → GoSlice String → σ → Run σ)
    (info : argInfo σ) (args : GoSlice String) (set : σ) : Run σ :=
  match argsForReq info args with
  | .error p => ⟨[], .panic p⟩
  | .ok forReq =>
    match argsForOpt info args with
    | .error p => ⟨[], .panic p⟩
    | .ok forOpt => parseWindows required optional info forReq forOpt set

/-- Go `parseArgs`. -/
def parseArgs (info : argInfo σ) (args : GoSlice String) (set : σ) : Run σ :=
  parseArgsWith parseRequiredArgs parseOptionalArgs info args set

end Distribute

/-! Concrete specs used to run the code on examples -/

/-- State of the example specs: the values stored so far, by access name. -/
abbrev Store := List (String × List String)

/-- An example `ArgSpec` whose `Parse` accepts every window and stores it under
the spec's name. -/
def storingSpec (name : String) (required slice : Bool) (maxLength : Int) : ArgSpec Store where
  AccessName := name
  IsRequired := required
  IsSlice := slice
  MaxLength := maxLength
  Parse := fun set values => .ok (set ++ [(name, values.vis)])

/-- Three required non-slice specs. -/
def threeRequired : List (ArgSpec Store) :=
  [storingSpec "a" true false 0, storingSpec "b" true false 0, storingSpec "c" true false 0]

/-- The `argInfo` of one required slice spec of arity 2. -/
def pairInfo : argInfo Store :=
  { req := [storingSpec "pair" true true 2], reqArgs := 2 }

/-- The `argInfo` of one required non-slice spec followed by one optional
non-slice spec. -/
def reqThenOpt : argInfo Store :=
  { req := [storingSpec "r" true false 0], opt := [storingSpec "o" false false 0],
    firstOpt := 1, reqArgs := 1, maxOptArgs := 1 }

/-- Number of positions of a list of required-ness flags at which the flag
differs from the one before: the number of runs minus one. -/
def switches : List Bool → Nat
  | a :: b :: rest => (if a != b then 1 else 0) + switches (b :: rest)
  | _ => 0

/-- The required-ness flags of a spec list, in order. -/
def requiredFlags {σ : Type} (specs : List (ArgSpec σ)) : List Bool :=
  specs.map fun s => s.IsRequired

/-- A required slice spec of unbounded size (`MaxLength() == 0`). -/
def unboundedRequired {σ : Type} (s : ArgSpec σ) : Prop :=
  s.IsRequired = true ∧ s.IsSlice = true ∧ s.MaxLength = 0

/-- The calls `tr` go left to right over `specs` and over the tokens `toks`:
the specs called are the first specs, the windows passed are consecutive pieces
of `toks` from its start, every window is non-empty, has one token for a
non-slice spec and, for a slice spec with `MaxLength() = m > 0`, the smaller of
`m` and the number of tokens not yet passed to an earlier call. -/
def OptionalOrder {σ : Type} (specs : List (ArgSpec σ)) (toks : List String)
    (tr : List (Call σ)) : Prop :=
  (tr.map fun c => c.spec) <+: specs ∧
  (tr.map fun c => c.values.vis).flatten <+: toks ∧
  ∀ pre c post, tr = pre ++ c :: post →
    c.values.vis ≠ [] ∧
    (c.spec.IsSlice = false → c.values.len = 1) ∧
    (c.spec.IsSlice = true → 0 < c.spec.MaxLength →
      (c.values.len : Int) =
        min c.spec.MaxLength
          ((toks.length : Int) - (pre.map fun d => (d.values.len : Int)).sum))

/-- The tokens of each recorded call, with the name of the spec called. -/
def callNames {σ : Type} (tr : List (Call σ)) : List (String × List String) :=
  tr.map fun c => (c.spec.AccessName, c.values.vis)

/-- The state in which the next call is made, after the calls `tr` have been
made from state `set` and each of them has returned `nil`. -/
def stateAfter {σ : Type} (set : σ) : List (Call σ) → Option σ
  | [] => some set
  | c :: cs =>
    match c.spec.Parse set c.values with
    | .ok set1 => stateAfter set1 cs
    | _ => none

/-- A run started in state `set` stops at the first `Parse` error: every call
is made in the state left by the calls before it, and when it returns an error
no call follows and the run returns that error. -/
def StopsAtError {σ : Type} (set : σ) (r : Run σ) : Prop :=
  ∀ pre c post, r.trace = pre ++ c :: post →
    ∃ s0, stateAfter set pre = some s0 ∧
      ∀ msg s1, c.spec.Parse s0 c.values = .error msg s1 →
        post = [] ∧ r.out = .error msg s1

/-- An example `ArgSpec` whose `Parse` rejects every window. -/
def failingSpec (name : String) (required slice : Bool) (maxLength : Int) : ArgSpec Store where
  AccessName := name
  IsRequired := required
  IsSlice := slice
  MaxLength := maxLength
  Parse := fun set _ => .error ("bad value for " ++ name) set

/-- The `argInfo` of a required spec whose `Parse` fails, a second required
spec and one optional spec. -/
def failFirst : argInfo Store :=
  { req := [failingSpec "x" true false 0, storingSpec "y" true false 0],
    opt := [storingSpec "o" false false 0],
    firstOpt := 2, reqArgs := 2, maxOptArgs := 1 }

/-- The `argInfo` of one required slice spec with `MaxLength() == -1`, with
the sum `reqArgs = -1` of its arity. -/
def negativeReq : argInfo Store :=
  { req := [storingSpec "xs" true true (-1)], reqArgs := -1 }

/-- The `argInfo` of one optional non-slice spec followed by a required slice
spec of arity 2. -/
def optThenReq : argInfo Store :=
  { req := [storingSpec "pair" true true 2], opt := [storingSpec "o" false false 0],
    firstReq := 1, reqArgs := 2, maxOptArgs := 1 }

/-! The file `flag_bool.go`: `BoolArg`, with the parts of the standard packages
`strconv` and `flag` that `BoolArg.Parse` calls -/

/-- Go `strconv.ParseBool`: it accepts `1`, `t`, `T`, `TRUE`, `true`, `True`,
`0`, `f`, `F`, `FALSE`, `false`, `False` and returns an error on any other
string. -/
def ParseBool (str : String) : Option Bool :=
  if str ∈ ["1", "t", "T", "TRUE", "true", "True"] then some true
  else if str ∈ ["0", "f", "F", "FALSE", "false", "False"] then some false
  else none

/-- Go `strconv.FormatBool`. -/
def FormatBool (b : Bool) : String :=
  if b then "true" else "false"

/-- Go `flag.Flag`, the value kept as its string form. -/
structure Flag where
  Name : String
  Usage : String
  Value : String
  DefValue : String
  deriving DecidableEq, Repr

/-- The verb `%q` on a string that needs no escaping: the string in double
quotes. -/
def quotePlain (s : String) : String :=
  "\"" ++ s ++ "\""

/-- Go `flag.FlagSet`, reduced to what `Var` reads and writes: the name of the
set, the flags defined in it (`formal`) and, by name, the place at which a flag
was set before being defined (`undef`). A `*flag.FlagSet` is an
`Option FlagSet`, `none` for the nil pointer. -/
structure FlagSet where
  name : String
  formal : List Flag
  undef : List (String × String) := []
  deriving DecidableEq, Repr

/-- Whether a flag called `name` is defined in the set. -/
def FlagSet.defined (f : FlagSet) (name : String) : Bool :=
  f.formal.any fun fl => fl.Name == name

/-- The panic of a method that reads a field through a nil pointer. -/
def nilDereference : Panic :=
  .other "runtime error: invalid memory address or nil pointer dereference"

/-- Go `(*flag.FlagSet).Var` on a non-nil set. It panics when the name begins
with `-`, when it contains `=`, when a flag of that name is already defined in
the set, and when a flag of that name was set before being defined; otherwise
it defines the flag. The texts under `%q` are rendered by `quotePlain`. -/
def FlagSet.Var (f : FlagSet) (value name usage : String) : Except Panic FlagSet :=
  if name.toList.head? = some '-' then
    .error (.other ("flag " ++ quotePlain name ++ " begins with -"))
  else if '=' ∈ name.toList then
    .error (.other ("flag " ++ quotePlain name ++ " contains ="))
  else if f.defined name then
    .error (.other
      (if f.name = "" then "flag redefined: " ++ name
       else f.name ++ " flag redefined: " ++ name))
  else if (f.undef.lookup name).getD "" ≠ "" then
    .error (.other
      ("flag " ++ name ++ " set at " ++ (f.undef.lookup name).getD "" ++
        " before being defined"))
  else
    .ok { f with formal := f.formal ++ [⟨name, usage, value, value⟩] }

/-- The conditions under which `Var` defines a flag called `name` in the set
instead of panicking. -/
def FlagSet.accepts (f : FlagSet) (name : String) : Prop :=
  name.toList.head? ≠ some '-' ∧ '=' ∉ name.toList ∧ f.defined name = false ∧
    (f.undef.lookup name).getD "" = ""

/-- Go `(*flag.FlagSet).BoolVar(p, name, value, usage)`: `Var` on a bool value
stored at `p`. Through a nil `*flag.FlagSet` the call panics. -/
def FlagSet.BoolVar (set : Option FlagSet) (name : String) (value : Bool) (usage : String) :
    Except Panic (Option FlagSet) :=
  match set with
  | none => .error nilDereference
  | some f =>
    match f.Var (FormatBool value) name usage with
    | .error p => .error p
    | .ok f1 => .ok (some f1)

/-- Go `(*flag.FlagSet).Bool(name, value, usage)`: `BoolVar` on a fresh bool. -/
def FlagSet.Bool (set : Option FlagSet) (name : String) (value : Bool) (usage : String) :
    Except Panic (Option FlagSet) :=
  FlagSet.BoolVar set name value usage

/-- The `BoolArg` struct. `Destination` is `none` for a nil pointer, else the
bool it points to. -/
structure BoolArg where
  Name : String
  Usage : String
  Required : Bool
  Value : Bool
  Destination : Option Bool
  deriving DecidableEq, Repr

/-- The errors built by `BoolArg.Parse` with `fmt.Errorf`. -/
inductive BoolArgError where
  /-- The text `no value provided for required bool arg %q`. -/
  | noValue (name : String)
  /-- The text `too many values provided for required bool arg %q`. -/
  | tooManyValues (name : String)
  /-- The text `could not parse %q as bool value for flag %s: %s`. -/
  | notBool (val name : String)
  deriving DecidableEq, Repr

/-- The text of the error, given the function `quote` that formats a string
under the verb `%q`. -/
def BoolArgError.message (quote : String → String) : BoolArgError → String
  | .noValue name => "no value provided for required bool arg " ++ quote name
  | .tooManyValues name => "too many values provided for required bool arg " ++ quote name
  | .notBool val name =>
      "could not parse " ++ quote val ++ " as bool value for flag " ++ name ++
        ": strconv.ParseBool: parsing " ++ quote val ++ ": invalid syntax"

/-- How a call of `BoolArg.Parse` ends, with the `BoolArg` and the flag set as
the call leaves them. -/
inductive BoolArgResult where
  | ok (a : BoolArg) (set : Option FlagSet)
  | error (e : BoolArgError) (a : BoolArg) (set : Option FlagSet)
  | panic (p : Panic)
  deriving DecidableEq, Repr

/-- Go `(*BoolArg).Parse`; `set` is the `*flag.FlagSet`, `none` when nil. -/
def BoolArg.Parse (a : BoolArg) (set : Option FlagSet) (values : GoSlice String) :
    BoolArgResult :=
  if values.len = 0 then
    if a.Required then .error (.noValue a.Name) a set else .ok a set
  else if values.len > 1 then
    .error (.tooManyValues a.Name) a set
  else
    match values.vis.head? with
    | none => .panic (.indexOutOfRange 0 values.len)
    | some val =>
      match ParseBool val with
      | none => .error (.notBool val a.Name) a set
      | some valBool =>
        let a1 : BoolArg := { a with Value := valBool }
        match a1.Destination with
        | some _ =>
          match FlagSet.BoolVar set a1.Name a1.Value a1.Usage with
          | .error p => .panic p
          | .ok set1 => .ok { a1 with Destination := some a1.Value } set1
        | none =>
          match FlagSet.Bool set a1.Name a1.Value a1.Usage with
          | .error p => .panic p
          | .ok set1 => .ok a1 set1

/-- Go `(*BoolArg).AccessName`. -/
def BoolArg.AccessName (a : BoolArg) : String := a.Name

/-- Go `(*BoolArg).IsRequired`. -/
def BoolArg.IsRequired (a : BoolArg) : Bool := a.Required

/-- Go `(*BoolArg).IsSlice`. -/
def BoolArg.IsSlice (_ : BoolArg) : Bool := false

/-- Go `(*BoolArg).MaxLength`. -/
def BoolArg.MaxLength (_ : BoolArg) : Int := 0

/-- A `*BoolArg` as an `ArgSpec`: the state holds the struct it points to and
the `*flag.FlagSet`. -/
def BoolArg.spec (quote : String → String) (a : BoolArg) :
    ArgSpec (BoolArg × Option FlagSet) where
  AccessName := a.AccessName
  IsRequired := a.IsRequired
  IsSlice := a.IsSlice
  MaxLength := a.MaxLength
  Parse := fun st values =>
    match st.1.Parse st.2 values with
    | .ok a1 set1 => .ok (a1, set1)
    | .error e a1 set1 => .error (e.message quote) (a1, set1)
    | .panic p => .panic p

/-- An optional `BoolArg` named `verbose`. -/
def verboseArg : BoolArg :=
  { Name := "verbose", Usage := "", Required := false, Value := false, Destination := none }

/-- A flag set in which a flag named `verbose` is already defined. -/
def verboseSet : FlagSet :=
  { name := "", formal := [⟨"verbose", "", "false", "false"⟩] }

/-- A flag set without flags. -/
def emptySet : FlagSet :=
  { name := "", formal := [] }

/-- An optional `BoolArg` whose name begins with `-`. -/
def dashArg : BoolArg :=
  { Name := "-v", Usage := "", Required := false, Value := false, Destination := none }

/-- The ways a run of the loop of `parseRequiredArgs` over `n` specs, started
in state `set`, can end: with the error returned by its last `Parse` call, with
the index panic of `argSpec[1]` after all `n` specs have been parsed, with a
slice-bounds panic on the token window, or with a panic raised inside its last
`Parse` call. -/
def RequiredEnd {σ : Type} (n : Nat) (set : σ) (r : Run σ) : Prop :=
  (∃ pre c s0 msg s1, r.trace = pre ++ [c] ∧ stateAfter set pre = some s0 ∧
    c.spec.Parse s0 c.values = .error msg s1 ∧ r.out = .error msg s1) ∨
  (r.trace.length = n ∧ r.out = .panic (.indexOutOfRange 1 1)) ∨
  (∃ lo hi cap, r.out = .panic (.sliceBoundsOutOfRange lo hi cap)) ∨
  (∃ pre c s0 p, r.trace = pre ++ [c] ∧ stateAfter set pre = some s0 ∧
    c.spec.Parse s0 c.values = .panic p ∧ r.out = .panic p)

/-! Facts about `verifyArgSpec` -/

section VerifyFacts

variable {σ : Type}

/-- The second loop of `verifyArgSpec` stops at its first spec whenever that
spec does not have the expected required-ness. -/
lemma findSwitch_head (req : Bool) (s0 : ArgSpec σ) (tl : List (ArgSpec σ)) (i : Nat)
    (h : s0.IsRequired ≠ req) : findSwitch req (s0 :: tl) i = some i := by
  simp [findSwitch, h]

/-- On a non-empty list `verifyArgSpec` returns the switching-back error at
index 0, of the kind given by the first spec. -/
lemma verifyArgSpec_cons (s0 : ArgSpec σ) (tl : List (ArgSpec σ)) :
    verifyArgSpec (s0 :: tl) =
      .error (if s0.IsRequired then .switchBackRequired 0 else .switchBackOptional 0) := by
  cases h : s0.IsRequired <;> simp [verifyArgSpec, findSwitch, h]

/-- C1, evaluated on the code: the list of one required and one optional
non-slice spec has two contiguous runs and no unbounded required slice, yet
`verifyArgSpec` returns an error instead of an `argInfo` with `reqArgs = 1` and
`maxOptArgs = 1`. -/
theorem verifyArgSpec_two_runs_rejected :
    switches (requiredFlags [storingSpec "src" true false 0, storingSpec "dst" false false 0]) ≤ 1 ∧
    (∀ s ∈ [storingSpec "src" true false 0, storingSpec "dst" false false 0],
      ¬ unboundedRequired s) ∧
    verifyArgSpec [storingSpec "src" true false 0, storingSpec "dst" false false 0] =
      .error (.switchBackRequired 0) := by
  refine ⟨by decide, ?_, rfl⟩
  intro s hs
  simp only [List.mem_cons, List.mem_singleton, List.not_mem_nil, or_false] at hs
  rcases hs with rfl | rfl <;> simp [unboundedRequired, storingSpec]

/-- C4, evaluated on the code: on required, optional, required the
required-ness switches back at index 2, and the error of `verifyArgSpec`
names index 0. -/
theorem verifyArgSpec_interleaved_names_index_zero :
    switches (requiredFlags [storingSpec "a" true false 0, storingSpec "b" false false 0,
      storingSpec "c" true false 0]) = 2 ∧
    verifyArgSpec [storingSpec "a" true false 0, storingSpec "b" false false 0,
      storingSpec "c" true false 0] = .error (.switchBackRequired 0) ∧
    (VerifyError.switchBackRequired 0).index = 0 ∧
    (VerifyError.switchBackRequired 0).message =
      "Switching back to \"required\" ArgSpec at index 0. " := by
  refine ⟨by decide, rfl, rfl, by decide⟩

/-- C5: a spec list that contains a required slice spec with `MaxLength() == 0`
makes `verifyArgSpec` return an error. -/
theorem verifyArgSpec_unbounded_required_error (specs : List (ArgSpec σ))
    (h : ∃ s ∈ specs, unboundedRequired s) :
    ∃ e, verifyArgSpec specs = .error e := by
  obtain ⟨s, hs, -⟩ := h
  cases specs with
  | nil => simp at hs
  | cons s0 tl => exact ⟨_, verifyArgSpec_cons s0 tl⟩

/-- Witness of C5 on the list holding one required unbounded slice. -/
theorem verifyArgSpec_unbounded_required_error_witness :
    (∃ s ∈ [storingSpec "files" true true 0], unboundedRequired s) ∧
    ∃ e, verifyArgSpec [storingSpec "files" true true 0] = .error e :=
  ⟨⟨_, List.mem_singleton.mpr rfl, rfl, rfl, rfl⟩,
   verifyArgSpec_unbounded_required_error _ ⟨_, List.mem_singleton.mpr rfl, rfl, rfl, rfl⟩⟩

/-- C6: on the empty spec list `verifyArgSpec` returns no error and an
`argInfo` whose fields are all zero: no required and no optional spec. -/
theorem verifyArgSpec_nil :
    ∃ info : argInfo σ, verifyArgSpec ([] : List (ArgSpec σ)) = .ok info ∧
      info.req = [] ∧ info.opt = [] ∧ info.firstReq = 0 ∧ info.firstOpt = 0 ∧
      info.reqArgs = 0 ∧ info.maxOptArgs = 0 ∧ info.unlimOptArgs = false :=
  ⟨{}, rfl, rfl, rfl, rfl, rfl, rfl, rfl, rfl⟩

end VerifyFacts

/-! Facts about Go slices -/

section SliceFacts

variable {α : Type}

/-- A successful `s[:hi]` has `0 ≤ hi ≤ cap(s)`, length `hi`, and holds the
first `hi` elements of the backing array. -/
lemma GoSlice.sliceTo_ok {s v : GoSlice α} {hi : Int} (h : s.sliceTo hi = .ok v) :
    0 ≤ hi ∧ hi ≤ (s.cap : Int) ∧ v.vis = (s.vis ++ s.hid).take hi.toNat ∧
      (v.len : Int) = hi := by
  unfold GoSlice.sliceTo GoSlice.slice at h
  split at h
  · rename_i hb
    obtain ⟨-, h0, hc⟩ := hb
    injection h with h
    subst h
    refine ⟨h0, hc, by simp, ?_⟩
    simp only [GoSlice.len, GoSlice.cap] at hc ⊢
    simp only [Int.toNat_zero, List.drop_zero, List.length_take, List.length_append]
    omega
  · cases h

/-- A successful `s[:hi]` with `hi ≤ len(s)` holds the first `hi` elements of `s`. -/
lemma GoSlice.sliceTo_ok_vis {s v : GoSlice α} {hi : Int} (h : s.sliceTo hi = .ok v)
    (hlen : hi ≤ (s.len : Int)) : v.vis = s.vis.take hi.toNat := by
  obtain ⟨h0, -, hv, -⟩ := GoSlice.sliceTo_ok h
  rw [hv, List.take_append_of_le_length]
  simp only [GoSlice.len] at hlen
  omega

/-- A successful `s[lo:]` has `0 ≤ lo ≤ len(s)` and holds the elements of `s`
from position `lo` on. -/
lemma GoSlice.sliceFrom_ok {s v : GoSlice α} {lo : Int} (h : s.sliceFrom lo = .ok v) :
    0 ≤ lo ∧ lo ≤ (s.len : Int) ∧ v.vis = s.vis.drop lo.toNat := by
  unfold GoSlice.sliceFrom GoSlice.slice at h
  split at h
  · rename_i hb
    obtain ⟨h0, hl, -⟩ := hb
    injection h with h
    subst h
    refine ⟨h0, hl, ?_⟩
    simp [GoSlice.len]
  · cases h

end SliceFacts

/-! Facts about `parseRequiredArgs` and `parseArgs` -/

section RequiredFacts

variable {σ : Type}

/-- Entered with a non-empty `argSpec`, the loop of `parseRequiredArgs` never
ends by returning `nil`. -/
lemma parseRequiredLoop_not_ok (rest : List (ArgSpec σ)) :
    ∀ (front x : ArgSpec σ) (args : GoSlice String) (set s : σ),
      (parseRequiredLoop front (x :: rest) args set).out ≠ .ok s := by
  induction rest with
  | nil =>
    intro front x args set s
    simp only [parseRequiredLoop, Run.after]
    split
    · simp
    · dsimp only
      split
      · simp
      · simp
      · split <;> simp
  | cons y rest ih =>
    intro front x args set s
    simp only [parseRequiredLoop, Run.after]
    split
    · simp
    · dsimp only
      split
      · simp
      · simp
      · split
        · simp
        · simpa using ih y y _ _ s

/-- Every `Parse` call of the loop of `parseRequiredArgs` is given exactly
`reqCount` tokens of the spec it calls. -/
lemma parseRequiredLoop_calls (l : List (ArgSpec σ)) :
    ∀ (front : ArgSpec σ) (args : GoSlice String) (set : σ),
      ∀ c ∈ (parseRequiredLoop front l args set).trace,
        (c.values.len : Int) = reqCount c.spec := by
  induction l with
  | nil =>
    intro front args set c hc
    simp [parseRequiredLoop] at hc
  | cons x rest ih =>
    intro front args set c hc
    simp only [parseRequiredLoop, Run.after] at hc
    split at hc
    · simp at hc
    · rename_i values hv
      simp only [List.mem_cons] at hc
      rcases hc with rfl | hc
      · exact (GoSlice.sliceTo_ok hv).2.2.2
      · split at hc
        · simp at hc
        · simp at hc
        · split at hc
          · simp at hc
          · split at hc
            · simp at hc
            · exact ih _ _ _ c hc

/-- Go `parseRequiredArgs` never returns `nil`. -/
lemma parseRequiredArgs_not_ok (argSpec : List (ArgSpec σ)) (args : GoSlice String)
    (set s : σ) : (parseRequiredArgs argSpec args set).out ≠ .ok s := by
  cases argSpec with
  | nil => simp [parseRequiredArgs]
  | cons x rest => simpa [parseRequiredArgs] using parseRequiredLoop_not_ok rest x x args set s

/-- Every `Parse` call of `parseRequiredArgs` is given exactly `reqCount`
tokens of the spec it calls. -/
lemma parseRequiredArgs_calls (argSpec : List (ArgSpec σ)) (args : GoSlice String)
    (set : σ) : ∀ c ∈ (parseRequiredArgs argSpec args set).trace,
      (c.values.len : Int) = reqCount c.spec := by
  cases argSpec with
  | nil => simp [parseRequiredArgs]
  | cons x rest => simpa [parseRequiredArgs] using parseRequiredLoop_calls (x :: rest) x args set

/-- A run of `parseArgs` that gets past the two slice expressions is the run of
`parseRequiredArgs` on the required window. -/
lemma parseArgs_eq_required (info : argInfo σ) (args : GoSlice String) (set : σ) :
    (∃ p, parseArgs info args set = ⟨[], .panic p⟩) ∨
    (∃ w, args.slice info.firstReq (wrapInt (info.firstReq + info.reqArgs)) = .ok w ∧
      parseArgs info args set = parseRequiredArgs info.req w set) := by
  cases hw : args.slice info.firstReq (wrapInt (info.firstReq + info.reqArgs)) with
  | error p => exact Or.inl ⟨p, by simp [parseArgs, parseArgsWith, argsForReq, hw]⟩
  | ok w =>
    simp only [parseArgs, parseArgsWith, argsForReq, parseWindows, hw]
    split
    · exact Or.inl ⟨_, rfl⟩
    · right
      refine ⟨w, rfl, ?_⟩
      split
      · rename_i s hs
        exact absurd hs (parseRequiredArgs_not_ok _ _ _ _)
      · rfl

/-- C2, evaluated on the code: three required non-slice specs whose `Parse`
always succeeds, on the tokens `a b c`. Each spec is parsed once, in order, with
its own token, and then the post statement of the loop indexes `argSpec[1]` of
a one-element slice: the run panics instead of returning `nil`. -/
theorem parseRequiredArgs_three_specs_panic :
    (∀ s ∈ threeRequired, ∀ set values, ∃ set1, s.Parse set values = .ok set1) ∧
    ((["a", "b", "c"].length : Int) = (threeRequired.map reqCount).sum) ∧
    callNames (parseRequiredArgs threeRequired ⟨["a", "b", "c"], []⟩ []).trace
      = [("a", ["a"]), ("b", ["b"]), ("c", ["c"])] ∧
    (parseRequiredArgs threeRequired ⟨["a", "b", "c"], []⟩ []).out
      = .panic (.indexOutOfRange 1 1) := by
  refine ⟨?_, by decide, by decide, by decide⟩
  intro s hs set values
  simp only [threeRequired, List.mem_cons, List.mem_singleton, List.not_mem_nil, or_false] at hs
  rcases hs with rfl | rfl | rfl <;> exact ⟨_, rfl⟩

/-- C7: when the required specs have total arity `reqArgs` and the token list
has fewer than `reqArgs` tokens from position `firstReq` on, `parseArgs` does
not return `nil`, and no `Parse` call it makes is given fewer tokens than the
arity of the spec called. The conclusion does not depend on the two
hypotheses: it holds for every `argInfo` and every token list. -/
theorem parseArgs_short_required_window (info : argInfo σ) (args : GoSlice String) (set : σ)
    (_harity : info.reqArgs = (info.req.map reqCount).sum)
    (_hshort : (args.len : Int) - info.firstReq < info.reqArgs) :
    (∀ s, (parseArgs info args set).out ≠ .ok s) ∧
    ∀ c ∈ (parseArgs info args set).trace, ¬ ((c.values.len : Int) < reqCount c.spec) := by
  rcases parseArgs_eq_required info args set with ⟨p, hp⟩ | ⟨w, -, hw⟩
  · rw [hp]
    simp
  · rw [hw]
    refine ⟨fun s => parseRequiredArgs_not_ok _ _ _ s, ?_⟩
    intro c hc
    have := parseRequiredArgs_calls _ _ _ c hc
    omega

/-- Witness of C7: one required slice spec of arity 2 and the single token `x`. -/
theorem parseArgs_short_required_window_witness :
    (pairInfo.reqArgs = (pairInfo.req.map reqCount).sum) ∧
    ((GoSlice.len (⟨["x"], []⟩ : GoSlice String) : Int) - pairInfo.firstReq < pairInfo.reqArgs) ∧
    (∀ s, (parseArgs pairInfo ⟨["x"], []⟩ []).out ≠ .ok s) ∧
    ∀ c ∈ (parseArgs pairInfo ⟨["x"], []⟩ []).trace,
      ¬ ((c.values.len : Int) < reqCount c.spec) :=
  ⟨by decide, by decide,
   parseArgs_short_required_window pairInfo ⟨["x"], []⟩ [] (by decide) (by decide)⟩

/-- C9, evaluated on the code: one required and one optional non-slice spec
and the single token `x`. The required spec is parsed with `x`, then
`parseRequiredArgs` panics at `argSpec[1]`, so `parseArgs` does not return
`nil`. -/
theorem parseArgs_no_optional_tokens_panic :
    (∀ s ∈ reqThenOpt.req, ∀ set values, ∃ set1, s.Parse set values = .ok set1) ∧
    ((GoSlice.len (⟨["x"], []⟩ : GoSlice String) : Int) = reqThenOpt.reqArgs) ∧
    callNames (parseArgs reqThenOpt ⟨["x"], []⟩ []).trace = [("r", ["x"])] ∧
    (parseArgs reqThenOpt ⟨["x"], []⟩ []).out = .panic (.indexOutOfRange 1 1) := by
  refine ⟨?_, by decide, by decide, by decide⟩
  intro s hs set values
  simp only [reqThenOpt, List.mem_singleton] at hs
  subst hs
  exact ⟨_, rfl⟩

end RequiredFacts

/-! Facts about `parseOptionalArgs` -/

section OptionalFacts

variable {σ : Type}

/-- With tokens left, an iteration of `parseOptionalArgs` takes at least one
token and at most all of them. -/
lemma optCount_bounds (front : ArgSpec σ) (n : Nat) (hn : 0 < n) :
    1 ≤ optCount front n ∧ optCount front n ≤ n := by
  unfold optCount
  dsimp only
  split_ifs <;> omega

/-- A non-slice spec takes one token. -/
lemma optCount_nonslice (front : ArgSpec σ) (n : Nat) (h : front.IsSlice = false) :
    optCount front n = 1 := by
  simp [optCount, h]

/-- A slice spec with a positive `MaxLength()` takes that many tokens, or all
that are left when fewer are left. -/
lemma optCount_slice (front : ArgSpec σ) (n : Nat) (h : front.IsSlice = true)
    (hm : 0 < front.MaxLength) (hn : 0 < n) :
    optCount front n = min front.MaxLength n := by
  unfold optCount
  dsimp only
  rw [if_pos h]
  split_ifs <;> omega

/-- One iteration of the loop of `parseOptionalArgs`: either no call is made,
or `front.Parse` is called on `args[:count]` and what follows, if anything, is
the loop on `argSpec[1:]` and `args[count:]`. -/
lemma parseOptionalLoop_step (front x : ArgSpec σ) (rest : List (ArgSpec σ))
    (args : GoSlice String) (set : σ) :
    (parseOptionalLoop front (x :: rest) args set).trace = [] ∨
    ∃ values tr, 0 < args.len ∧
      args.sliceTo (optCount front args.len) = .ok values ∧
      (parseOptionalLoop front (x :: rest) args set).trace = ⟨front, values⟩ :: tr ∧
      (tr = [] ∨ ∃ next rest1 args1 set1, rest = next :: rest1 ∧
        args.sliceFrom (optCount front args.len) = .ok args1 ∧
        tr = (parseOptionalLoop next rest args1 set1).trace) := by
  simp only [parseOptionalLoop]
  split
  · rename_i hlen
    split
    · exact Or.inl rfl
    · rename_i values hv
      right
      refine ⟨values, _, hlen, hv, rfl, ?_⟩
      split
      · exact Or.inl rfl
      · exact Or.inl rfl
      · rename_i set1 _
        split
        · exact Or.inl rfl
        · rename_i args1 ha
          cases rest with
          | nil => exact Or.inl rfl
          | cons next rest1 => exact Or.inr ⟨next, rest1, args1, set1, rfl, ha, rfl⟩
  · exact Or.inl rfl

/-- No call at all is in order. -/
lemma OptionalOrder.nil (specs : List (ArgSpec σ)) (toks : List String) :
    OptionalOrder specs toks [] := by
  refine ⟨by simp, by simp, ?_⟩
  intro pre c post h
  simp at h

/-- A first call on the first spec with the first `optCount` tokens, followed
by calls in order on the other specs and the other tokens, is in order. -/
lemma OptionalOrder.cons (front : ArgSpec σ) (rest : List (ArgSpec σ)) (toks : List String)
    (values : GoSlice String) (tr : List (Call σ)) (hpos : 0 < toks.length)
    (hvis : values.vis = toks.take (optCount front toks.length).toNat)
    (htr : OptionalOrder rest (toks.drop (optCount front toks.length).toNat) tr) :
    OptionalOrder (front :: rest) toks (⟨front, values⟩ :: tr) := by
  obtain ⟨h1, h2, h3⟩ := htr
  have hb := optCount_bounds front toks.length hpos
  have hvl : (values.len : Int) = optCount front toks.length := by
    simp only [GoSlice.len, hvis, List.length_take]
    omega
  refine ⟨?_, ?_, ?_⟩
  · simpa [List.prefix_cons_inj] using h1
  · simp only [List.map_cons, List.flatten_cons, hvis]
    conv_rhs => rw [← List.take_append_drop (optCount front toks.length).toNat toks]
    exact (List.prefix_append_right_inj _).mpr h2
  · intro pre c post hdec
    cases pre with
    | nil =>
      simp only [List.nil_append, List.cons.injEq] at hdec
      obtain ⟨rfl, -⟩ := hdec
      refine ⟨?_, ?_, ?_⟩
      · intro h0
        simp only [GoSlice.len] at hvl
        dsimp only at h0
        rw [h0] at hvl
        simp only [List.length_nil, Nat.cast_zero] at hvl
        omega
      · intro hs
        have := optCount_nonslice front toks.length hs
        dsimp only at hs ⊢
        omega
      · intro hs hm
        have := optCount_slice front toks.length hs hm hpos
        simp only [List.map_nil, List.sum_nil, sub_zero]
        dsimp only at hs hm ⊢
        omega
    | cons a pre1 =>
      simp only [List.cons_append, List.cons.injEq] at hdec
      obtain ⟨rfl, hdec⟩ := hdec
      obtain ⟨g1, g2, g3⟩ := h3 pre1 c post hdec
      refine ⟨g1, g2, ?_⟩
      intro hs hm
      rw [g3 hs hm]
      simp only [List.map_cons, List.sum_cons, List.length_drop]
      rw [hvl]
      congr 1
      omega

/-- The calls of the loop of `parseOptionalArgs` follow the specs and the
window from left to right. -/
lemma parseOptionalLoop_order (rest : List (ArgSpec σ)) :
    ∀ (front x : ArgSpec σ) (args : GoSlice String) (set : σ),
      OptionalOrder (front :: rest) args.vis
        (parseOptionalLoop front (x :: rest) args set).trace := by
  induction rest with
  | nil =>
    intro front x args set
    rcases parseOptionalLoop_step front x [] args set with h | ⟨values, tr, hlen, hv, htr, h⟩
    · rw [h]
      exact OptionalOrder.nil _ _
    · have htr0 : tr = [] := by
        rcases h with h | ⟨_, _, _, _, h, -⟩
        · exact h
        · cases h
      subst htr0
      rw [htr]
      have hb := optCount_bounds front args.len hlen
      exact OptionalOrder.cons front [] args.vis values [] hlen
        (GoSlice.sliceTo_ok_vis hv hb.2) (OptionalOrder.nil _ _)
  | cons y rest ih =>
    intro front x args set
    rcases parseOptionalLoop_step front x (y :: rest) args set with
      h | ⟨values, tr, hlen, hv, htr, h⟩
    · rw [h]
      exact OptionalOrder.nil _ _
    · rw [htr]
      have hb := optCount_bounds front args.len hlen
      refine OptionalOrder.cons front (y :: rest) args.vis values tr hlen
        (GoSlice.sliceTo_ok_vis hv hb.2) ?_
      rcases h with h | ⟨next, rest1, args1, set1, hrest, ha, h⟩
      · rw [h]
        exact OptionalOrder.nil _ _
      · simp only [List.cons.injEq] at hrest
        obtain ⟨rfl, rfl⟩ := hrest
        obtain ⟨-, -, hvis1⟩ := GoSlice.sliceFrom_ok ha
        rw [h]
        have := ih y y args1 set1
        rw [hvis1] at this
        exact this

/-- The calls of `parseOptionalArgs` follow the specs and the window from left
to right. -/
lemma parseOptionalArgs_order (argSpec : List (ArgSpec σ)) (args : GoSlice String) (set : σ) :
    OptionalOrder argSpec args.vis (parseOptionalArgs argSpec args set).trace := by
  cases argSpec with
  | nil => exact OptionalOrder.nil _ _
  | cons x rest => simpa [parseOptionalArgs] using parseOptionalLoop_order rest x x args set

/-- An unbounded slice spec (`MaxLength() == 0`) takes one token per iteration
of `parseOptionalArgs`, however many are left. -/
lemma optCount_unbounded (front : ArgSpec σ) (n : Nat) (h : front.IsSlice = true)
    (hm : front.MaxLength = 0) (hn : 0 < n) : optCount front n = 1 := by
  unfold optCount
  dsimp only
  rw [if_pos h, hm]
  split_ifs <;> omega

/-- C3, evaluated on the code: with the window `p q r` left, the unbounded
optional slice is parsed with the single token `p`, not with `p q r`; alone in
the list, the run then panics, and followed by another optional spec, that one
is handed `q`. -/
theorem parseOptionalArgs_unbounded_slice_gets_one_token :
    callNames (parseOptionalArgs [storingSpec "rest" false true 0] ⟨["p", "q", "r"], []⟩ []).trace
      = [("rest", ["p"])] ∧
    (parseOptionalArgs [storingSpec "rest" false true 0] ⟨["p", "q", "r"], []⟩ []).out
      = .panic (.indexOutOfRange 1 1) ∧
    callNames (parseOptionalArgs [storingSpec "rest" false true 0, storingSpec "more" false false 0]
        ⟨["p", "q", "r"], []⟩ []).trace
      = [("rest", ["p"]), ("more", ["q"])] := by
  refine ⟨by decide, by decide, by decide⟩

/-- C8, evaluated on the code: one optional non-slice spec whose `Parse`
always succeeds and the two tokens `p q`: after the spec has taken `p` the post
statement of the loop indexes `argSpec[1]` and the run panics. -/
theorem parseOptionalArgs_leftover_tokens_panic :
    (∀ s ∈ [storingSpec "a" false false 0], ∀ set values, ∃ set1, s.Parse set values = .ok set1) ∧
    callNames (parseOptionalArgs [storingSpec "a" false false 0] ⟨["p", "q"], []⟩ []).trace
      = [("a", ["p"])] ∧
    (parseOptionalArgs [storingSpec "a" false false 0] ⟨["p", "q"], []⟩ []).out
      = .panic (.indexOutOfRange 1 1) := by
  refine ⟨?_, by decide, by decide⟩
  intro s hs set values
  rw [List.mem_singleton] at hs
  subst hs
  exact ⟨_, rfl⟩

/-- C10: the `Parse` calls of `parseOptionalArgs` go left to right over the
specs and over the window. The specs called are the first specs of `argSpec`, in
order; the windows passed, concatenated, are a prefix of the token window; each
window is non-empty, holds one token for a non-slice spec and, for a slice spec
with `MaxLength() = m > 0`, the smaller of `m` and the number of tokens left
after the calls before it. -/
theorem parseOptionalArgs_left_to_right (argSpec : List (ArgSpec σ)) (args : GoSlice String)
    (set : σ) :
    ((parseOptionalArgs argSpec args set).trace.map fun c => c.spec) <+: argSpec ∧
    ((parseOptionalArgs argSpec args set).trace.map fun c => c.values.vis).flatten
      <+: args.vis ∧
    ∀ pre c post, (parseOptionalArgs argSpec args set).trace = pre ++ c :: post →
      c.values.vis ≠ [] ∧
      (c.spec.IsSlice = false → c.values.len = 1) ∧
      (c.spec.IsSlice = true → 0 < c.spec.MaxLength →
        (c.values.len : Int) =
          min c.spec.MaxLength
            ((args.len : Int) - (pre.map fun d => (d.values.len : Int)).sum)) :=
  parseOptionalArgs_order argSpec args set

/-- Witness of C10: a slice spec of at most 2 tokens, a non-slice spec and a
slice spec of at most 5 tokens on the window `p q r s t` receive `p q`, `r` and
`s t`. -/
theorem parseOptionalArgs_left_to_right_witness :
    callNames (parseOptionalArgs
        [storingSpec "two" false true 2, storingSpec "one" false false 0,
          storingSpec "five" false true 5, storingSpec "last" false false 0]
        ⟨["p", "q", "r", "s", "t"], []⟩ []).trace
      = [("two", ["p", "q"]), ("one", ["r"]), ("five", ["s", "t"])] ∧
    ((parseOptionalArgs
        [storingSpec "two" false true 2, storingSpec "one" false false 0,
          storingSpec "five" false true 5, storingSpec "last" false false 0]
        ⟨["p", "q", "r", "s", "t"], []⟩ []).trace.map fun c => c.values.vis).flatten
      <+: ["p", "q", "r", "s", "t"] :=
  ⟨by decide,
   (parseOptionalArgs_left_to_right
      [storingSpec "two" false true 2, storingSpec "one" false false 0,
        storingSpec "five" false true 5, storingSpec "last" false false 0]
      ⟨["p", "q", "r", "s", "t"], []⟩ []).2.1⟩

end OptionalFacts

/-! Facts about errors returned by `Parse` -/

section ErrorFacts

variable {σ : Type}

/-- A run without calls stops at the first error. -/
lemma stopsAtError_nil (set : σ) (r : Run σ) (h : r.trace = []) : StopsAtError set r := by
  intro pre c post hdec
  rw [h] at hdec
  simp at hdec

/-- A run made of one call stops at the first error when it returns the error
of that call. -/
lemma stopsAtError_last (set : σ) (c0 : Call σ) (r : Run σ) (hr : r.trace = [])
    (hout : ∀ msg s1, c0.spec.Parse set c0.values = .error msg s1 → r.out = .error msg s1) :
    StopsAtError set (Run.after c0 r) := by
  intro pre c post hdec
  simp only [Run.after, hr] at hdec
  cases pre with
  | nil =>
    simp only [List.nil_append, List.cons.injEq] at hdec
    obtain ⟨rfl, rfl⟩ := hdec
    exact ⟨set, rfl, fun msg s1 h => ⟨rfl, hout msg s1 h⟩⟩
  | cons a pre1 =>
    simp only [List.cons_append, List.cons.injEq] at hdec
    have := congrArg List.length hdec.2
    simp at this
    omega

/-- A call that returns `nil`, followed by a run that stops at the first
error, is a run that stops at the first error. -/
lemma stopsAtError_step (set set1 : σ) (c0 : Call σ) (r : Run σ)
    (hok : c0.spec.Parse set c0.values = .ok set1) (hr : StopsAtError set1 r) :
    StopsAtError set (Run.after c0 r) := by
  intro pre c post hdec
  simp only [Run.after] at hdec
  cases pre with
  | nil =>
    simp only [List.nil_append, List.cons.injEq] at hdec
    obtain ⟨rfl, -⟩ := hdec
    refine ⟨set, rfl, ?_⟩
    intro msg s1 h
    rw [hok] at h
    cases h
  | cons a pre1 =>
    simp only [List.cons_append, List.cons.injEq] at hdec
    obtain ⟨rfl, hdec⟩ := hdec
    obtain ⟨s0, hs0, h⟩ := hr pre1 c post hdec
    refine ⟨s0, ?_, h⟩
    simp only [stateAfter, hok]
    exact hs0

/-- The loop of `parseRequiredArgs` stops at the first error. -/
lemma parseRequiredLoop_stops (l : List (ArgSpec σ)) :
    ∀ (front : ArgSpec σ) (args : GoSlice String) (set : σ),
      StopsAtError set (parseRequiredLoop front l args set) := by
  induction l with
  | nil =>
    intro front args set
    exact stopsAtError_nil _ _ rfl
  | cons x rest ih =>
    intro front args set
    simp only [parseRequiredLoop]
    split
    · exact stopsAtError_nil _ _ rfl
    · rename_i values hv
      cases hP : front.Parse set values with
      | panic p =>
        refine stopsAtError_last set ⟨front, values⟩ _ rfl ?_
        intro msg s1 h
        rw [hP] at h
        cases h
      | error msg0 s0 =>
        refine stopsAtError_last set ⟨front, values⟩ _ rfl ?_
        intro msg s1 h
        rw [hP] at h
        cases h
        rfl
      | ok set1 =>
        refine stopsAtError_step set set1 ⟨front, values⟩ _ hP ?_
        dsimp only
        split
        · exact stopsAtError_nil _ _ rfl
        · split
          · exact stopsAtError_nil _ _ rfl
          · exact ih _ _ _

/-- The loop of `parseOptionalArgs` stops at the first error. -/
lemma parseOptionalLoop_stops (l : List (ArgSpec σ)) :
    ∀ (front : ArgSpec σ) (args : GoSlice String) (set : σ),
      StopsAtError set (parseOptionalLoop front l args set) := by
  induction l with
  | nil =>
    intro front args set
    exact stopsAtError_nil _ _ rfl
  | cons x rest ih =>
    intro front args set
    simp only [parseOptionalLoop]
    split
    · split
      · exact stopsAtError_nil _ _ rfl
      · rename_i values hv
        cases hP : front.Parse set values with
        | panic p =>
          refine stopsAtError_last set ⟨front, values⟩ _ rfl ?_
          intro msg s1 h
          rw [hP] at h
          cases h
        | error msg0 s0 =>
          refine stopsAtError_last set ⟨front, values⟩ _ rfl ?_
          intro msg s1 h
          rw [hP] at h
          cases h
          rfl
        | ok set1 =>
          refine stopsAtError_step set set1 ⟨front, values⟩ _ hP ?_
          dsimp only
          split
          · exact stopsAtError_nil _ _ rfl
          · split
            · exact stopsAtError_nil _ _ rfl
            · exact ih _ _ _
    · exact stopsAtError_nil _ _ rfl

/-- Go `parseRequiredArgs` stops at the first error. -/
lemma parseRequiredArgs_stops (argSpec : List (ArgSpec σ)) (args : GoSlice String) (set : σ) :
    StopsAtError set (parseRequiredArgs argSpec args set) := by
  cases argSpec with
  | nil => exact stopsAtError_nil _ _ rfl
  | cons x rest => simpa [parseRequiredArgs] using parseRequiredLoop_stops (x :: rest) x args set

/-- Go `parseOptionalArgs` stops at the first error. -/
lemma parseOptionalArgs_stops (argSpec : List (ArgSpec σ)) (args : GoSlice String) (set : σ) :
    StopsAtError set (parseOptionalArgs argSpec args set) := by
  cases argSpec with
  | nil => exact stopsAtError_nil _ _ rfl
  | cons x rest => simpa [parseOptionalArgs] using parseOptionalLoop_stops (x :: rest) x args set

/-- Go `parseArgs` stops at the first error. -/
lemma parseArgs_stops (info : argInfo σ) (args : GoSlice String) (set : σ) :
    StopsAtError set (parseArgs info args set) := by
  rcases parseArgs_eq_required info args set with ⟨p, hp⟩ | ⟨w, -, hw⟩
  · rw [hp]
    exact stopsAtError_nil _ _ rfl
  · rw [hw]
    exact parseRequiredArgs_stops _ _ _

end ErrorFacts

/-! Further facts about `verifyArgSpec`, `parseArgs` and its two loops -/

section MoreFacts

variable {σ : Type}

/-- C11: when a `Parse` call made by `parseArgs` returns an error, no call
follows it and `parseArgs` returns exactly that error; the same holds for
`parseRequiredArgs` and for `parseOptionalArgs` run on their own. Every call is
made in the state left by the calls before it, which all returned `nil`. -/
theorem parse_error_stops_run (info : argInfo σ) (argSpec : List (ArgSpec σ))
    (args : GoSlice String) (set : σ) :
    (∀ pre c post, (parseArgs info args set).trace = pre ++ c :: post →
      ∃ s0, stateAfter set pre = some s0 ∧
        ∀ msg s1, c.spec.Parse s0 c.values = .error msg s1 →
          post = [] ∧ (parseArgs info args set).out = .error msg s1) ∧
    (∀ pre c post, (parseRequiredArgs argSpec args set).trace = pre ++ c :: post →
      ∃ s0, stateAfter set pre = some s0 ∧
        ∀ msg s1, c.spec.Parse s0 c.values = .error msg s1 →
          post = [] ∧ (parseRequiredArgs argSpec args set).out = .error msg s1) ∧
    (∀ pre c post, (parseOptionalArgs argSpec args set).trace = pre ++ c :: post →
      ∃ s0, stateAfter set pre = some s0 ∧
        ∀ msg s1, c.spec.Parse s0 c.values = .error msg s1 →
          post = [] ∧ (parseOptionalArgs argSpec args set).out = .error msg s1) :=
  ⟨parseArgs_stops info args set, parseRequiredArgs_stops argSpec args set,
   parseOptionalArgs_stops argSpec args set⟩

/-- Witness of C11: the first required spec fails on `a`; the second required
spec and the optional spec are not parsed and `parseArgs` returns the error of
the first. In `parseOptionalArgs` a failing second spec stops the third. -/
theorem parse_error_stops_run_witness :
    callNames (parseArgs failFirst ⟨["a", "b", "c"], []⟩ []).trace = [("x", ["a"])] ∧
    (parseArgs failFirst ⟨["a", "b", "c"], []⟩ []).out = .error "bad value for x" [] ∧
    callNames (parseOptionalArgs
        [storingSpec "p" false false 0, failingSpec "q" false false 0,
          storingSpec "r" false false 0] ⟨["1", "2", "3"], []⟩ []).trace
      = [("p", ["1"]), ("q", ["2"])] ∧
    (parseOptionalArgs
        [storingSpec "p" false false 0, failingSpec "q" false false 0,
          storingSpec "r" false false 0] ⟨["1", "2", "3"], []⟩ []).out
      = .error "bad value for q" [("p", ["1"])] := by
  refine ⟨by decide, ?_, by decide, ?_⟩
  · obtain ⟨s0, hs0, h⟩ :=
      (parse_error_stops_run failFirst [] ⟨["a", "b", "c"], []⟩ []).1 []
        ⟨failingSpec "x" true false 0, ⟨["a"], ["b", "c"]⟩⟩ [] rfl
    simp only [stateAfter, Option.some.injEq] at hs0
    subst hs0
    exact (h _ _ rfl).2
  · obtain ⟨s0, hs0, h⟩ :=
      (parse_error_stops_run failFirst
        [storingSpec "p" false false 0, failingSpec "q" false false 0,
          storingSpec "r" false false 0] ⟨["1", "2", "3"], []⟩ []).2.2
        [⟨storingSpec "p" false false 0, ⟨["1"], ["2", "3"]⟩⟩]
        ⟨failingSpec "q" false false 0, ⟨["2"], ["3"]⟩⟩ [] rfl
    simp only [stateAfter, storingSpec, Option.some.injEq] at hs0
    subst hs0
    exact (h _ _ rfl).2

/-- C16: on a non-empty list the second loop of `verifyArgSpec`, run from
index 0 with the flipped required-ness, stops at the first spec, and
`verifyArgSpec` returns the switching-back error naming index 0; so it returns
an `argInfo` on the empty list only. -/
theorem verifyArgSpec_rejects_nonempty (specs : List (ArgSpec σ)) :
    (∀ s0 tl, specs = s0 :: tl →
      findSwitch (!s0.IsRequired) specs 0 = some 0 ∧
      verifyArgSpec specs =
        .error (if s0.IsRequired then .switchBackRequired 0 else .switchBackOptional 0)) ∧
    (specs ≠ [] → ∃ e, verifyArgSpec specs = .error e ∧ e.index = 0) ∧
    ((∃ info, verifyArgSpec specs = .ok info) ↔ specs = []) := by
  refine ⟨?_, ?_, ?_⟩
  · rintro s0 tl rfl
    refine ⟨findSwitch_head _ s0 tl 0 ?_, verifyArgSpec_cons s0 tl⟩
    cases s0.IsRequired <;> simp
  · intro hne
    cases specs with
    | nil => exact absurd rfl hne
    | cons s0 tl =>
      refine ⟨_, verifyArgSpec_cons s0 tl, ?_⟩
      cases s0.IsRequired <;> rfl
  · constructor
    · rintro ⟨info, h⟩
      cases specs with
      | nil => rfl
      | cons s0 tl =>
        rw [verifyArgSpec_cons] at h
        cases h
    · rintro rfl
      exact ⟨{}, rfl⟩

/-- Witness of C16: a single optional spec is rejected at index 0. -/
theorem verifyArgSpec_rejects_nonempty_witness :
    verifyArgSpec [storingSpec "o" false false 0] = .error (.switchBackOptional 0) ∧
    ∃ e, verifyArgSpec [storingSpec "o" false false 0] = .error e ∧ e.index = 0 :=
  ⟨rfl, (verifyArgSpec_rejects_nonempty [storingSpec "o" false false 0]).2.1 (by simp)⟩

end MoreFacts

/-! Facts about the token windows of `parseArgs` -/

section WindowFacts

variable {σ : Type}

/-- Once both slice expressions have succeeded, the body of `parseArgs` passes
`argsForReq` to the first function it calls and `argsForOpt` to the second. -/
lemma parseArgsWith_windows
    (required optional : List (ArgSpec σ) → GoSlice String → σ → Run σ)
    (info : argInfo σ) (args w o : GoSlice String) (set : σ)
    (hw : argsForReq info args = .ok w) (ho : argsForOpt info args = .ok o) :
    parseArgsWith required optional info args set =
      parseWindows required optional info w o set := by
  simp only [parseArgsWith, hw, ho]

/-- Without overflow `wrapInt` is the identity. -/
lemma wrapInt_eq (x : Int) (h0 : 0 ≤ x) (h1 : x < 2 ^ 63) : wrapInt x = x := by
  unfold wrapInt
  omega

/-- A slice expression `s[lo:hi]` with `0 ≤ lo ≤ hi ≤ len(s)` succeeds and
holds the elements of `s` at the positions `lo .. hi-1`. -/
lemma GoSlice.slice_within {α : Type} (s : GoSlice α) (lo hi : Int) (h0 : 0 ≤ lo)
    (h1 : lo ≤ hi) (h2 : hi ≤ (s.len : Int)) :
    ∃ v, s.slice lo hi = .ok v ∧ v.vis = (s.vis.drop lo.toNat).take (hi.toNat - lo.toNat) := by
  have hcap : hi ≤ (s.cap : Int) := by
    simp only [GoSlice.len, GoSlice.cap] at h2 ⊢
    omega
  refine ⟨_, if_pos ⟨h0, h1, hcap⟩, ?_⟩
  have hn : hi.toNat ≤ s.vis.length := by
    simp only [GoSlice.len] at h2
    omega
  simp only [List.take_append_of_le_length hn, List.drop_take]

/-- C15, as stated, fails: for the `argInfo` of one required slice spec with
`MaxLength() == -1`, where `reqArgs = -1`, the one-token list has at least
`firstReq + reqArgs` tokens, but `args[0:-1]` panics: no window of length
`reqArgs` is handed to any spec. -/
theorem parseArgs_negative_count_panics :
    negativeReq.firstReq + negativeReq.reqArgs
      ≤ ((GoSlice.len (⟨["a"], []⟩ : GoSlice String) : Nat) : Int) ∧
    argsForReq negativeReq ⟨["a"], []⟩ = .error (.sliceBoundsOutOfRange 0 (-1) 1) ∧
    (parseArgs negativeReq ⟨["a"], []⟩ []).trace.length = 0 ∧
    (parseArgs negativeReq ⟨["a"], []⟩ []).out = .panic (.sliceBoundsOutOfRange 0 (-1) 1) ∧
    ¬ ∃ w, argsForReq negativeReq ⟨["a"], []⟩ = .ok w ∧ (w.len : Int) = negativeReq.reqArgs := by
  have h : argsForReq negativeReq ⟨["a"], []⟩ = .error (.sliceBoundsOutOfRange 0 (-1) 1) := rfl
  refine ⟨by decide, h, rfl, rfl, ?_⟩
  rintro ⟨w, hw, -⟩
  rw [h] at hw
  cases hw

/-- C15, amended: for an `argInfo` with non-negative `firstReq` and `reqArgs`
and a token list of at least `firstReq + reqArgs` tokens, both slice
expressions of `parseArgs` succeed. The required window holds the `reqArgs`
tokens from position `firstReq` on; the optional window holds the tokens after
them when `firstReq = 0` and the `firstReq` tokens before them otherwise; the
token list is the optional window followed by the required window and the
unused tokens, or the required window followed by the optional one, so no
position is in both. Whatever the two functions called do, the body of
`parseArgs` passes the required window with `info.req` to the first and, when
that one returns `nil`, the optional window with `info.opt` to the second. -/
theorem parseArgs_token_windows (info : argInfo σ) (args : GoSlice String)
    (hfirst : 0 ≤ info.firstReq) (hreq : 0 ≤ info.reqArgs)
    (hlen : info.firstReq + info.reqArgs ≤ (args.len : Int))
    (hgo : (args.len : Int) < 2 ^ 63) :
    ∃ w o, argsForReq info args = .ok w ∧ argsForOpt info args = .ok o ∧
      ((∀ (required optional : List (ArgSpec σ) → GoSlice String → σ → Run σ) (set : σ),
          parseArgsWith required optional info args set =
            parseWindows required optional info w o set) ∧
        ∀ set : σ, parseArgs info args set =
          parseWindows parseRequiredArgs parseOptionalArgs info w o set) ∧
      w.vis = (args.vis.drop info.firstReq.toNat).take info.reqArgs.toNat ∧
      (w.len : Int) = info.reqArgs ∧
      (info.firstReq = 0 → o.vis = args.vis.drop info.reqArgs.toNat ∧
        args.vis = w.vis ++ o.vis) ∧
      (info.firstReq ≠ 0 → o.vis = args.vis.take info.firstReq.toNat ∧
        args.vis = o.vis ++ w.vis ++
          args.vis.drop (info.firstReq.toNat + info.reqArgs.toNat)) := by
  have hsum : wrapInt (info.firstReq + info.reqArgs) = info.firstReq + info.reqArgs :=
    wrapInt_eq _ (by omega) (by omega)
  have hlenN : info.firstReq.toNat + info.reqArgs.toNat ≤ args.vis.length := by
    simp only [GoSlice.len] at hlen
    omega
  have htoNat : (info.firstReq + info.reqArgs).toNat = info.firstReq.toNat + info.reqArgs.toNat := by
    omega
  obtain ⟨w, hw, hwvis⟩ :=
    GoSlice.slice_within args info.firstReq (info.firstReq + info.reqArgs) hfirst (by omega) hlen
  have hwvis1 : w.vis = (args.vis.drop info.firstReq.toNat).take info.reqArgs.toNat := by
    rw [hwvis, htoNat, Nat.add_sub_cancel_left]
  have hwlen : (w.len : Int) = info.reqArgs := by
    simp only [GoSlice.len, hwvis1, List.length_take, List.length_drop]
    omega
  have hw1 : argsForReq info args = .ok w := by
    unfold argsForReq
    rw [hsum]
    exact hw
  by_cases hz : info.firstReq = 0
  · obtain ⟨o, ho, hovis⟩ :=
      GoSlice.slice_within args (info.firstReq + info.reqArgs) (args.len : Int) (by omega) hlen
        (le_refl _)
    have ho1 : argsForOpt info args = .ok o := by
      unfold argsForOpt GoSlice.sliceFrom
      rw [if_pos hz, hsum]
      exact ho
    have hovis1 : o.vis = args.vis.drop info.reqArgs.toNat := by
      rw [hovis, htoNat, hz]
      simp [GoSlice.len]
    refine ⟨w, o, hw1, ho1,
      ⟨fun required optional set => parseArgsWith_windows required optional info args w o set hw1 ho1,
        fun set => parseArgsWith_windows _ _ info args w o set hw1 ho1⟩,
      hwvis1, hwlen, ?_, ?_⟩
    · intro _
      refine ⟨hovis1, ?_⟩
      rw [hwvis1, hovis1, hz]
      simp
    · intro hne
      exact absurd hz hne
  · obtain ⟨o, ho, hovis⟩ :=
      GoSlice.slice_within args 0 info.firstReq (le_refl _) hfirst (by omega)
    have ho1 : argsForOpt info args = .ok o := by
      unfold argsForOpt GoSlice.sliceTo
      rw [if_neg hz]
      exact ho
    have hovis1 : o.vis = args.vis.take info.firstReq.toNat := by
      rw [hovis]
      simp
    refine ⟨w, o, hw1, ho1,
      ⟨fun required optional set => parseArgsWith_windows required optional info args w o set hw1 ho1,
        fun set => parseArgsWith_windows _ _ info args w o set hw1 ho1⟩,
      hwvis1, hwlen, ?_, ?_⟩
    · intro h
      exact absurd h hz
    · intro _
      refine ⟨hovis1, ?_⟩
      rw [hwvis1, hovis1, List.append_assoc, ← List.drop_drop, List.take_append_drop,
        List.take_append_drop]

/-- Witness of C15, amended: optional specs first. With `firstReq = 1` and
`reqArgs = 2` the tokens `o x y z` give the required window `x y` and the
optional window `o`; behind a first function that returns `nil`,
`parseOptionalArgs` is called on `o`. -/
theorem parseArgs_token_windows_witness :
    (0 : Int) ≤ optThenReq.firstReq ∧ (0 : Int) ≤ optThenReq.reqArgs ∧
    optThenReq.firstReq + optThenReq.reqArgs
      ≤ ((GoSlice.len (⟨["o", "x", "y", "z"], []⟩ : GoSlice String) : Nat) : Int) ∧
    argsForReq optThenReq ⟨["o", "x", "y", "z"], []⟩ = .ok ⟨["x", "y"], ["z"]⟩ ∧
    argsForOpt optThenReq ⟨["o", "x", "y", "z"], []⟩ = .ok ⟨["o"], ["x", "y", "z"]⟩ ∧
    callNames (parseArgsWith (fun _ _ set => ⟨[], .ok set⟩) parseOptionalArgs optThenReq
      ⟨["o", "x", "y", "z"], []⟩ []).trace = [("o", ["o"])] ∧
    ∃ w o, argsForReq optThenReq ⟨["o", "x", "y", "z"], []⟩ = .ok w ∧
      argsForOpt optThenReq ⟨["o", "x", "y", "z"], []⟩ = .ok o ∧
      (w.len : Int) = optThenReq.reqArgs ∧
      ["o", "x", "y", "z"] = o.vis ++ w.vis ++ ["z"] := by
  refine ⟨by decide, by decide, by decide, rfl, rfl, by decide, ?_⟩
  obtain ⟨w, o, hw, ho, -, -, hwlen, -, h⟩ :=
    parseArgs_token_windows optThenReq ⟨["o", "x", "y", "z"], []⟩
      (by decide) (by decide) (by decide) (by decide)
  exact ⟨w, o, hw, ho, hwlen, (h (by decide)).2⟩

end WindowFacts

/-! Facts about `BoolArg.Parse` -/

section BoolArgFacts

/-- `Var` defines the flag when the set accepts the name. -/
lemma flagSet_Var_accepts (f : FlagSet) (value name usage : String) (h : f.accepts name) :
    f.Var value name usage =
      .ok { f with formal := f.formal ++ [⟨name, usage, value, value⟩] } := by
  obtain ⟨h1, h2, h3, h4⟩ := h
  unfold FlagSet.Var
  rw [if_neg h1, if_neg h2, if_neg (by simp [h3]), if_neg (not_not.mpr h4)]

/-- `Var` panics when the set does not accept the name. -/
lemma flagSet_Var_rejects (f : FlagSet) (value name usage : String) (h : ¬ f.accepts name) :
    ∃ p, f.Var value name usage = .error p := by
  unfold FlagSet.Var
  by_cases h1 : name.toList.head? = some '-'
  · exact ⟨_, if_pos h1⟩
  · rw [if_neg h1]
    by_cases h2 : '=' ∈ name.toList
    · exact ⟨_, if_pos h2⟩
    · rw [if_neg h2]
      by_cases h3 : f.defined name = true
      · exact ⟨_, if_pos h3⟩
      · rw [if_neg h3]
        by_cases h4 : (f.undef.lookup name).getD "" ≠ ""
        · exact ⟨_, if_pos h4⟩
        · exfalso
          exact h ⟨h1, h2, by simpa using h3, not_not.mp h4⟩

/-- `BoolVar` through a non-nil pointer to a set that accepts the name returns. -/
lemma flagSet_BoolVar_accepts (set : Option FlagSet) (name : String) (value : Bool)
    (usage : String) (h : ∃ f, set = some f ∧ f.accepts name) :
    ∃ set1, FlagSet.BoolVar set name value usage = .ok set1 := by
  obtain ⟨f, rfl, hf⟩ := h
  simp [FlagSet.BoolVar, flagSet_Var_accepts f _ name usage hf]

/-- `BoolVar` through a nil pointer, or on a set that does not accept the
name, panics. -/
lemma flagSet_BoolVar_rejects (set : Option FlagSet) (name : String) (value : Bool)
    (usage : String) (h : ¬ ∃ f, set = some f ∧ f.accepts name) :
    ∃ p, FlagSet.BoolVar set name value usage = .error p := by
  cases set with
  | none => exact ⟨_, rfl⟩
  | some f =>
    have hf : ¬ f.accepts name := fun hacc => h ⟨f, rfl, hacc⟩
    obtain ⟨p, hp⟩ := flagSet_Var_rejects f (FormatBool value) name usage hf
    exact ⟨p, by simp [FlagSet.BoolVar, hp]⟩

/-- With exactly one token `BoolArg.Parse` converts it with `ParseBool` and, on
a literal, stores the value and defines the flag: with a rejected token it
returns an error and leaves the `BoolArg` as it was, with a literal it panics
when the flag set is nil or does not accept the name and returns `nil`
otherwise. -/
lemma BoolArg.Parse_one (a : BoolArg) (set : Option FlagSet) (values : GoSlice String)
    (tok : String) (hv : values.vis = [tok]) :
    (ParseBool tok = none → a.Parse set values = .error (.notBool tok a.Name) a set) ∧
    (∀ b, ParseBool tok = some b → (¬ ∃ f, set = some f ∧ f.accepts a.Name) →
      ∃ p, a.Parse set values = .panic p) ∧
    (∀ b, ParseBool tok = some b → (∃ f, set = some f ∧ f.accepts a.Name) →
      ∃ a1 set1, a.Parse set values = .ok a1 set1 ∧ a1.Value = b) := by
  refine ⟨?_, ?_, ?_⟩
  · intro hp
    simp [BoolArg.Parse, GoSlice.len, hv, hp]
  · intro b hp hd
    obtain ⟨p, hpanic⟩ := flagSet_BoolVar_rejects set a.Name b a.Usage hd
    cases hdest : a.Destination <;>
      simp [BoolArg.Parse, GoSlice.len, hv, hp, hdest, FlagSet.Bool, hpanic]
  · intro b hp hd
    obtain ⟨set1, hok⟩ := flagSet_BoolVar_accepts set a.Name b a.Usage hd
    cases hdest : a.Destination <;>
      simp [BoolArg.Parse, GoSlice.len, hv, hp, hdest, FlagSet.Bool, hok]

/-- With two or more tokens `BoolArg.Parse` returns the error of too many
values and leaves the `BoolArg` as it was. -/
lemma BoolArg.Parse_many (a : BoolArg) (set : Option FlagSet) (values : GoSlice String)
    (h : 1 < values.len) : a.Parse set values = .error (.tooManyValues a.Name) a set := by
  have h0 : values.len ≠ 0 := by omega
  simp [BoolArg.Parse, h0, h]

/-- C13: called with zero tokens, `BoolArg.Parse` returns an error exactly when
the `BoolArg` is required; it returns `nil` otherwise, and either way it leaves
the `BoolArg`, its `Value` included, and the flag set as they were. -/
theorem BoolArg_Parse_no_tokens (a : BoolArg) (set : Option FlagSet) (values : GoSlice String)
    (h : values.len = 0) :
    ((∃ e a1 set1, a.Parse set values = .error e a1 set1) ↔ a.Required = true) ∧
    (a.Required = true → a.Parse set values = .error (.noValue a.Name) a set) ∧
    (a.Required = false → a.Parse set values = .ok a set) := by
  cases hr : a.Required <;> simp [BoolArg.Parse, h, hr]

/-- Witness of C13: an optional and a required `BoolArg`, no token. -/
theorem BoolArg_Parse_no_tokens_witness :
    GoSlice.len (⟨[], []⟩ : GoSlice String) = 0 ∧
    verboseArg.Parse (some emptySet) ⟨[], []⟩ = .ok verboseArg (some emptySet) ∧
    ({ verboseArg with Required := true } : BoolArg).Parse (some emptySet) ⟨[], []⟩ =
      .error (.noValue "verbose") { verboseArg with Required := true } (some emptySet) :=
  ⟨rfl, (BoolArg_Parse_no_tokens verboseArg (some emptySet) ⟨[], []⟩ rfl).2.2 rfl,
   (BoolArg_Parse_no_tokens { verboseArg with Required := true } (some emptySet)
      ⟨[], []⟩ rfl).2.1 rfl⟩

/-- C14, as stated, fails: the single token `true` is a literal of `ParseBool`,
but in a flag set that already defines `verbose` the call panics with
`flag redefined: verbose` instead of returning `nil`. -/
theorem BoolArg_Parse_redefined_flag_panics :
    ParseBool "true" = some true ∧
    verboseArg.Parse (some verboseSet) ⟨["true"], []⟩
      = .panic (.other "flag redefined: verbose") ∧
    ¬ ((∃ a1 set1, verboseArg.Parse (some verboseSet) ⟨["true"], []⟩ = .ok a1 set1) ↔
        ∃ tok b, (⟨["true"], []⟩ : GoSlice String).vis = [tok] ∧ ParseBool tok = some b) := by
  refine ⟨by decide, by decide, ?_⟩
  intro h
  obtain ⟨a1, set1, h1⟩ := h.mpr ⟨"true", true, rfl, by decide⟩
  have hp : verboseArg.Parse (some verboseSet) ⟨["true"], []⟩
      = .panic (.other "flag redefined: verbose") := by decide
  rw [hp] at h1
  cases h1

/-- C14, amended: called with at least one token, `BoolArg.Parse` returns `nil`
exactly when there is one token, `ParseBool` accepts it, the flag set is not
nil and it accepts the name of the `BoolArg`: the name does not begin with `-`,
does not contain `=`, is not yet defined in the set and was not set before
being defined. `Value` is then the parsed boolean. With more than one token, or
one token that `ParseBool` rejects, it returns an error and leaves the
`BoolArg` as it was. With one accepted token and a nil set or a name the set
does not accept, it panics. `ParseBool` accepts the twelve literals and nothing
else. -/
theorem BoolArg_Parse_tokens (a : BoolArg) (set : Option FlagSet) (values : GoSlice String)
    (h : 0 < values.len) :
    ((∃ a1 set1, a.Parse set values = .ok a1 set1) ↔
      ∃ tok b, values.vis = [tok] ∧ ParseBool tok = some b ∧
        ∃ f, set = some f ∧ f.accepts a.Name) ∧
    (∀ a1 set1, a.Parse set values = .ok a1 set1 →
      ∃ tok, values.vis = [tok] ∧ ParseBool tok = some a1.Value) ∧
    (1 < values.len → a.Parse set values = .error (.tooManyValues a.Name) a set) ∧
    (∀ tok, values.vis = [tok] → ParseBool tok = none →
      a.Parse set values = .error (.notBool tok a.Name) a set) ∧
    (∀ tok b, values.vis = [tok] → ParseBool tok = some b →
      (¬ ∃ f, set = some f ∧ f.accepts a.Name) → ∃ p, a.Parse set values = .panic p) ∧
    (∀ tok, (∃ b, ParseBool tok = some b) ↔
      tok ∈ ["1", "t", "T", "TRUE", "true", "True", "0", "f", "F", "FALSE", "false", "False"]) := by
  have key : ∀ a1 set1, a.Parse set values = .ok a1 set1 →
      ∃ tok, values.vis = [tok] ∧ ParseBool tok = some a1.Value ∧
        ∃ f, set = some f ∧ f.accepts a.Name := by
    intro a1 set1 hok
    rcases hv : values.vis with _ | ⟨tok, _ | ⟨t2, rest⟩⟩
    · simp [GoSlice.len, hv] at h
    · refine ⟨tok, rfl, ?_⟩
      obtain ⟨h1, h2, h3⟩ := BoolArg.Parse_one a set values tok hv
      cases hp : ParseBool tok with
      | none =>
        rw [h1 hp] at hok
        cases hok
      | some b =>
        by_cases hd : ∃ f, set = some f ∧ f.accepts a.Name
        · obtain ⟨a2, set2, hok2, hval⟩ := h3 b hp hd
          rw [hok2] at hok
          cases hok
          exact ⟨by rw [hval], hd⟩
        · obtain ⟨p, hpanic⟩ := h2 b hp hd
          rw [hpanic] at hok
          cases hok
    · have hmany : 1 < values.len := by simp [GoSlice.len, hv]
      rw [BoolArg.Parse_many a set values hmany] at hok
      cases hok
  refine ⟨⟨?_, ?_⟩, ?_, BoolArg.Parse_many a set values, ?_, ?_, ?_⟩
  · rintro ⟨a1, set1, hok⟩
    obtain ⟨tok, hv, hp, hd⟩ := key a1 set1 hok
    exact ⟨tok, _, hv, hp, hd⟩
  · rintro ⟨tok, b, hv, hp, hd⟩
    obtain ⟨a1, set1, hok, -⟩ := (BoolArg.Parse_one a set values tok hv).2.2 b hp hd
    exact ⟨a1, set1, hok⟩
  · intro a1 set1 hok
    obtain ⟨tok, hv, hp, -⟩ := key a1 set1 hok
    exact ⟨tok, hv, hp⟩
  · intro tok hv hp
    exact (BoolArg.Parse_one a set values tok hv).1 hp
  · intro tok b hv hp hd
    exact (BoolArg.Parse_one a set values tok hv).2.1 b hp hd
  · intro tok
    unfold ParseBool
    constructor
    · rintro ⟨b, hb⟩
      split_ifs at hb with h1 h2
      · simp only [List.mem_cons, List.mem_singleton, List.not_mem_nil, or_false] at h1 ⊢
        tauto
      · simp only [List.mem_cons, List.mem_singleton, List.not_mem_nil, or_false] at h2 ⊢
        tauto
    · intro hmem
      split_ifs with h1 h2
      · exact ⟨_, rfl⟩
      · exact ⟨_, rfl⟩
      · simp only [List.mem_cons, List.mem_singleton, List.not_mem_nil, or_false] at h1 h2 hmem
        tauto

/-- Witness of C14, amended: the token `True` in a flag set without flags is
accepted; the same token panics for a `BoolArg` named `-v` and through a nil
flag set. -/
theorem BoolArg_Parse_tokens_witness :
    0 < GoSlice.len (⟨["True"], []⟩ : GoSlice String) ∧
    verboseArg.Parse (some emptySet) ⟨["True"], []⟩ =
      .ok { verboseArg with Value := true }
        (some { name := "", formal := [⟨"verbose", "", "true", "true"⟩] }) ∧
    dashArg.Parse (some emptySet) ⟨["True"], []⟩
      = .panic (.other "flag \"-v\" begins with -") ∧
    verboseArg.Parse none ⟨["True"], []⟩ = .panic nilDereference ∧
    ∃ a1 set1, verboseArg.Parse (some emptySet) ⟨["True"], []⟩ = .ok a1 set1 :=
  ⟨by decide, by decide, by decide, by decide,
   (BoolArg_Parse_tokens verboseArg (some emptySet) ⟨["True"], []⟩ (by decide)).1.mpr
     ⟨"True", true, rfl, by decide, emptySet, rfl, by decide, by decide, by decide, by decide⟩⟩

end BoolArgFacts

/-! How `parseRequiredArgs` ends -/

section RequiredEndFacts

variable {σ : Type}

/-- A failed slice expression panics with the slice-bounds panic. -/
lemma GoSlice.slice_error {α : Type} {s : GoSlice α} {lo hi : Int} {p : Panic}
    (h : s.slice lo hi = .error p) : p = .sliceBoundsOutOfRange lo hi s.cap := by
  unfold GoSlice.slice at h
  split at h
  · cases h
  · injection h with h
    exact h.symm

/-- A call that returns `nil`, followed by a run over `n` specs that ends in one
of the ways of `RequiredEnd`, is such a run over `n + 1` specs. -/
lemma requiredEnd_step (n : Nat) (set set1 : σ) (c0 : Call σ) (r : Run σ)
    (hok : c0.spec.Parse set c0.values = .ok set1) (hr : RequiredEnd n set1 r) :
    RequiredEnd (n + 1) set (Run.after c0 r) := by
  rcases hr with ⟨pre, c, s0, msg, s1, htr, hs0, hP, hout⟩ | ⟨hlen, hout⟩ |
    ⟨lo, hi, cap, hout⟩ | ⟨pre, c, s0, p, htr, hs0, hP, hout⟩
  · refine Or.inl ⟨c0 :: pre, c, s0, msg, s1, ?_, ?_, hP, hout⟩
    · simp [Run.after, htr]
    · simp only [stateAfter, hok]
      exact hs0
  · exact Or.inr (Or.inl ⟨by simp [Run.after, hlen], hout⟩)
  · exact Or.inr (Or.inr (Or.inl ⟨lo, hi, cap, hout⟩))
  · refine Or.inr (Or.inr (Or.inr ⟨c0 :: pre, c, s0, p, ?_, ?_, hP, hout⟩))
    · simp [Run.after, htr]
    · simp only [stateAfter, hok]
      exact hs0

/-- Entered with a non-empty `argSpec`, the loop of `parseRequiredArgs` ends in
one of the ways of `RequiredEnd`. -/
lemma parseRequiredLoop_end (rest : List (ArgSpec σ)) :
    ∀ (front x : ArgSpec σ) (args : GoSlice String) (set : σ),
      RequiredEnd (rest.length + 1) set (parseRequiredLoop front (x :: rest) args set) := by
  induction rest with
  | nil =>
    intro front x args set
    simp only [parseRequiredLoop]
    split
    · rename_i p hp
      exact Or.inr (Or.inr (Or.inl ⟨_, _, _, congrArg Outcome.panic (GoSlice.slice_error hp)⟩))
    · rename_i values hv
      cases hP : front.Parse set values with
      | panic p => exact Or.inr (Or.inr (Or.inr ⟨[], ⟨front, values⟩, set, p, rfl, rfl, hP, rfl⟩))
      | error msg s1 => exact Or.inl ⟨[], ⟨front, values⟩, set, msg, s1, rfl, rfl, hP, rfl⟩
      | ok set1 =>
        dsimp only
        split
        · rename_i p hp
          exact Or.inr (Or.inr (Or.inl
            ⟨_, _, _, congrArg Outcome.panic (GoSlice.slice_error hp)⟩))
        · exact Or.inr (Or.inl ⟨rfl, rfl⟩)
  | cons y rest ih =>
    intro front x args set
    simp only [parseRequiredLoop]
    split
    · rename_i p hp
      exact Or.inr (Or.inr (Or.inl ⟨_, _, _, congrArg Outcome.panic (GoSlice.slice_error hp)⟩))
    · rename_i values hv
      cases hP : front.Parse set values with
      | panic p => exact Or.inr (Or.inr (Or.inr ⟨[], ⟨front, values⟩, set, p, rfl, rfl, hP, rfl⟩))
      | error msg s1 => exact Or.inl ⟨[], ⟨front, values⟩, set, msg, s1, rfl, rfl, hP, rfl⟩
      | ok set1 =>
        dsimp only
        split
        · rename_i p hp
          exact Or.inr (Or.inr (Or.inl
            ⟨_, _, _, congrArg Outcome.panic (GoSlice.slice_error hp)⟩))
        · exact requiredEnd_step _ set set1 ⟨front, values⟩ _ hP (ih y y _ set1)

/-- C17, as stated, fails: a required `BoolArg` named `verbose`, parsed on the
token `true` in a flag set that already defines `verbose`, panics inside its
`Parse` with `flag redefined: verbose`; `parseRequiredArgs` ends with that
panic, which is neither an error returned by `Parse` nor an index or
slice-bounds panic. -/
theorem parseRequiredArgs_parse_panic_escapes :
    (parseRequiredArgs [BoolArg.spec quotePlain { verboseArg with Required := true }]
        ⟨["true"], []⟩ ({ verboseArg with Required := true }, some verboseSet)).out
      = .panic (.other "flag redefined: verbose") ∧
    ¬ ((∃ msg s, (parseRequiredArgs [BoolArg.spec quotePlain { verboseArg with Required := true }]
          ⟨["true"], []⟩ ({ verboseArg with Required := true }, some verboseSet)).out
            = .error msg s) ∨
       (∃ i n, (parseRequiredArgs [BoolArg.spec quotePlain { verboseArg with Required := true }]
          ⟨["true"], []⟩ ({ verboseArg with Required := true }, some verboseSet)).out
            = .panic (.indexOutOfRange i n)) ∨
       (∃ lo hi cap,
          (parseRequiredArgs [BoolArg.spec quotePlain { verboseArg with Required := true }]
          ⟨["true"], []⟩ ({ verboseArg with Required := true }, some verboseSet)).out
            = .panic (.sliceBoundsOutOfRange lo hi cap))) := by
  have hout : (parseRequiredArgs [BoolArg.spec quotePlain { verboseArg with Required := true }]
        ⟨["true"], []⟩ ({ verboseArg with Required := true }, some verboseSet)).out
      = .panic (.other "flag redefined: verbose") := by decide
  refine ⟨hout, ?_⟩
  rw [hout]
  rintro (⟨msg, s, h⟩ | ⟨i, n, h⟩ | ⟨lo, hi, cap, h⟩) <;> cases h

/-- C17, amended: `parseRequiredArgs` never returns `nil`. On the empty spec
list it panics at `argSpec[0]`. Otherwise it returns the error of its last
`Parse` call, or panics at `argSpec[1]` after every spec has been parsed, or
panics on a slice expression of the token window, or ends with a panic raised
inside its last `Parse` call. Hence `parseArgs` never returns `nil` either. -/
theorem parseRequiredArgs_never_returns_nil (argSpec : List (ArgSpec σ)) (info : argInfo σ)
    (args : GoSlice String) (set : σ) :
    (∀ s, (parseRequiredArgs argSpec args set).out ≠ .ok s) ∧
    ((argSpec = [] ∧ (parseRequiredArgs argSpec args set).out = .panic (.indexOutOfRange 0 0)) ∨
      (∃ pre c s0 msg s1, (parseRequiredArgs argSpec args set).trace = pre ++ [c] ∧
        stateAfter set pre = some s0 ∧ c.spec.Parse s0 c.values = .error msg s1 ∧
        (parseRequiredArgs argSpec args set).out = .error msg s1) ∨
      ((parseRequiredArgs argSpec args set).trace.length = argSpec.length ∧
        (parseRequiredArgs argSpec args set).out = .panic (.indexOutOfRange 1 1)) ∨
      (∃ lo hi cap,
        (parseRequiredArgs argSpec args set).out = .panic (.sliceBoundsOutOfRange lo hi cap)) ∨
      (∃ pre c s0 p, (parseRequiredArgs argSpec args set).trace = pre ++ [c] ∧
        stateAfter set pre = some s0 ∧ c.spec.Parse s0 c.values = .panic p ∧
        (parseRequiredArgs argSpec args set).out = .panic p)) ∧
    (∀ s, (parseArgs info args set).out ≠ .ok s) := by
  refine ⟨parseRequiredArgs_not_ok argSpec args set, ?_, ?_⟩
  · cases argSpec with
    | nil => exact Or.inl ⟨rfl, rfl⟩
    | cons x rest =>
      right
      have h := parseRequiredLoop_end rest x x args set
      simpa [parseRequiredArgs, RequiredEnd] using h
  · intro s
    rcases parseArgs_eq_required info args set with ⟨p, hp⟩ | ⟨w, -, hw⟩
    · rw [hp]
      simp
    · rw [hw]
      exact parseRequiredArgs_not_ok _ _ _ s

/-- Witness of C17, amended: on three required specs and the tokens `a b c`
the run ends with the panic at `argSpec[1]`, after three calls. -/
theorem parseRequiredArgs_never_returns_nil_witness :
    (∀ s, (parseRequiredArgs threeRequired ⟨["a", "b", "c"], []⟩ []).out ≠ .ok s) ∧
    (parseRequiredArgs threeRequired ⟨["a", "b", "c"], []⟩ []).trace.length = 3 ∧
    (parseRequiredArgs ([] : List (ArgSpec Store)) ⟨["a"], []⟩ []).out
      = .panic (.indexOutOfRange 0 0) ∧
    ∀ s, (parseArgs pairInfo ⟨["a", "b"], []⟩ []).out ≠ .ok s :=
  ⟨(parseRequiredArgs_never_returns_nil threeRequired pairInfo ⟨["a", "b", "c"], []⟩ []).1,
   by decide, by decide,
   (parseRequiredArgs_never_returns_nil threeRequired pairInfo ⟨["a", "b"], []⟩ []).2.2⟩

end RequiredEndFacts

end Cli
